import Mathlib

/-!
Shallow embedding of `codex-rs/core/src/client.rs`: the streaming model
client that dispatches among three wire protocols (Responses, Chat,
Gemini), interprets the incremental SSE event stream, retries failed
HTTP attempts with backoff, and bridges producer tasks to a consumer
through a bounded channel.

Modelling conventions:
- machine integers are `Nat`;
- the opaque JSON values carried by SSE frames are modelled by the
  result of their downstream `serde_json::from_value` decode (`ItemVal`,
  `RespVal`): the code only ever observes that result;
- the bounded mpsc channel is modelled by a `budget : Nat`, the number
  of sends the consumer will still accept before it hangs up; a send
  succeeds iff the budget is positive and consumes one unit, and a send
  attempted at budget zero fails (receiver dropped);
- each producer loop is a function from the finite list of outcomes it
  would read from the transport to the list of events it successfully
  delivers, together with the suffix of the input it never reads;
- collaborators that live outside `client.rs` (`backoff`,
  `OPENAI_REQUEST_MAX_RETRIES`, credential resolution, the chat
  aggregation adapter) are parameters of the corresponding functions.
-/

namespace Codex

/-- Rust `crate::models::ContentItem`, restricted to the two cases the client
distinguishes: `OutputText { text }` and everything else (matched by a
wildcard in the source). -/
inductive ContentItem where
  | outputText (text : String)
  | otherContent (tag : String)
deriving DecidableEq, Repr

/-- Rust `crate::models::ResponseItem`, restricted to the `Message` variant the
client constructs plus a stand-in for the remaining variants. -/
inductive ResponseItem where
  | message (role : String) (content : List ContentItem)
      (id : Option String) (callId : Option String) (status : Option String)
  | otherItem (tag : String)
deriving DecidableEq, Repr

/-- Rust `crate::client_common::ResponseEvent`. -/
inductive ResponseEvent where
  | outputItemDone (item : ResponseItem)
  | completed (responseId : String)
deriving DecidableEq, Repr

/-- Rust `crate::error::CodexErr`, restricted to the variants `client.rs`
constructs. -/
inductive CodexErr where
  | stream (msg : String)
  | unexpectedStatus (status : Nat) (body : String)
  | retryLimit (status : Nat)
  | envVar (var : String)
  | transport (msg : String)
deriving DecidableEq, Repr

/-- One element of the event channel: `Result<ResponseEvent>`. -/
abbrev Ev := Except CodexErr ResponseEvent

/-- Result of `serde_json::from_value::<ResponseItem>` on the `item`
field of an SSE event: either the decoded item or a decode failure. -/
inductive ItemVal where
  | ok (item : ResponseItem)
  | bad
deriving DecidableEq, Repr

/-- Result of `serde_json::from_value::<ResponseCompleted>` on the
`response` field of an SSE event: either the decoded `id` or a decode
failure. -/
inductive RespVal where
  | ok (id : String)
  | bad
deriving DecidableEq, Repr

/-- Struct `SseEvent` as deserialized from one frame's `data`: a `type`
discriminator plus optional `response` and `item` JSON objects (modelled
by their decode results). -/
structure SseEvent where
  kind : String
  response : Option RespVal
  item : Option ItemVal
deriving DecidableEq, Repr

/-- One outcome of `timeout(idle_timeout, stream.next()).await` in
`process_sse`:
- `frame (some ev)`: a frame arrived and its `data` parsed as `SseEvent`;
- `frame none`: a frame arrived but `serde_json::from_str` failed;
- `transportError msg`: the SSE layer yielded `Ok(Some(Err e))`;
- `idleTimeout`: the timeout elapsed with no frame (`Err(_)`).
Graceful close (`Ok(None)`) is the exhaustion of the list. -/
inductive StreamStep where
  | frame (data : Option SseEvent)
  | transportError (msg : String)
  | idleTimeout
deriving DecidableEq, Repr

/-- The discriminators `process_sse` explicitly ignores (handled
separately from `other` only to skip the log line; behaviour is the
same skip). -/
def ignoredKinds : List String :=
  ["response.content_part.done", "response.created",
   "response.function_call_arguments.delta", "response.in_progress",
   "response.output_item.added", "response.output_text.delta",
   "response.output_text.done", "response.reasoning_summary_part.added",
   "response.reasoning_summary_text.delta",
   "response.reasoning_summary_text.done"]

/-- Function `process_sse`: interprets the SSE step sequence, threading the
`response_id` state and the consumer's remaining send budget. Returns
the events actually delivered to the consumer, paired with the suffix
of the input the task never read (nonempty only when it returned early
on a failed send or on a terminal outcome). -/
def processSse : List StreamStep → Option String → Nat → List Ev × List StreamStep
  | [], rid, budget =>
    -- Ok(None): transport closed gracefully.
    (match rid with
     | some i => (if 0 < budget then [.ok (.completed i)] else [], [])
     | none =>
       (if 0 < budget then
          [.error (.stream "stream closed before response.completed")]
        else [], []))
  | .transportError m :: rest, _, budget =>
    ((if 0 < budget then [.error (.stream m)] else []), rest)
  | .idleTimeout :: rest, _, budget =>
    ((if 0 < budget then [.error (.stream "idle timeout waiting for SSE")] else []), rest)
  | .frame none :: rest, rid, budget =>
    -- data failed to parse as SseEvent: debug-log and continue.
    processSse rest rid budget
  | .frame (some ev) :: rest, rid, budget =>
    if ev.kind = "response.output_item.done" then
      match ev.item with
      | some (.ok item) =>
        if 0 < budget then
          let r := processSse rest rid (budget - 1)
          (.ok (.outputItemDone item) :: r.1, r.2)
        else
          -- send failed: receiver dropped, return immediately.
          ([], rest)
      | _ =>
        -- missing item or ResponseItem decode failure: skip.
        processSse rest rid budget
    else if ev.kind = "response.completed" then
      match ev.response with
      | some (.ok i) => processSse rest (some i) budget
      | _ => processSse rest rid budget
    else
      -- ignored kinds and unknown kinds: skip.
      processSse rest rid budget

/-- The Chat-path bridge task in `stream()`: forwards every upstream
event into the channel, breaking on the first failed send. Returns the
delivered events and the unread upstream suffix. -/
def chatBridge : List Ev → Nat → List Ev × List Ev
  | [], _ => ([], [])
  | _ :: rest, 0 => ([], rest)
  | e :: rest, budget + 1 =>
    let r := chatBridge rest budget
    (e :: r.1, r.2)

/-! ### Gemini response shapes and the single-shot adapter -/

/-- Struct `GeminiResponsePartInternal`: `{ text: Option<String> }`. -/
structure GeminiResponsePartInternal where
  text : Option String
deriving DecidableEq, Repr

/-- Struct `GeminiContentResponsePart`: `{ parts, role }`. -/
structure GeminiContentResponsePart where
  parts : Option (List GeminiResponsePartInternal)
  role : Option String
deriving DecidableEq, Repr

/-- Struct `GeminiCandidate`: `{ content }`. -/
structure GeminiCandidate where
  content : Option GeminiContentResponsePart
deriving DecidableEq, Repr

/-- Struct `GeminiGenerateContentResponse`: `{ candidates }`. -/
structure GeminiGenerateContentResponse where
  candidates : Option (List GeminiCandidate)
deriving DecidableEq, Repr

/-- The `OutputItemDone` event `process_gemini_response` builds for one
text part. -/
def geminiItemEvent (text : String) : Ev :=
  .ok (.outputItemDone (.message "assistant" [.outputText text] none none none))

/-- Innermost loop of `process_gemini_response` (`for part in parts`):
sends one `OutputItemDone` per part carrying text, returning from the
whole function on a failed send. Returns the delivered events, the
remaining budget, an aborted flag (a send failed), and the parts left
unvisited on abort. -/
def geminiPartsLoop : List GeminiResponsePartInternal → Nat →
    List Ev × Nat × Bool × List GeminiResponsePartInternal
  | [], budget => ([], budget, false, [])
  | p :: rest, budget =>
    match p.text with
    | none => geminiPartsLoop rest budget
    | some t =>
      if 0 < budget then
        let r := geminiPartsLoop rest (budget - 1)
        (geminiItemEvent t :: r.1, r.2)
      else
        ([], 0, true, rest)

/-- Outer loop of `process_gemini_response` (`for candidate in
candidates`), propagating an abort from the parts loop (the `return`
exits the whole function). -/
def geminiCandLoop : List GeminiCandidate → Nat → List Ev × Nat × Bool
  | [], budget => ([], budget, false)
  | c :: rest, budget =>
    let step : List Ev × Nat × Bool :=
      match c.content with
      | none => ([], budget, false)
      | some content =>
        match content.parts with
        | none => ([], budget, false)
        | some ps =>
          let r := geminiPartsLoop ps budget
          (r.1, r.2.1, r.2.2.1)
    if step.2.2 then (step.1, step.2.1, true)
    else
      let r := geminiCandLoop rest step.2.1
      (step.1 ++ r.1, r.2)

/-- Function `process_gemini_response`. -/
def processGeminiResponse (resp : GeminiGenerateContentResponse)
    (budget : Nat) : List Ev × Nat × Bool :=
  match resp.candidates with
  | none => ([], budget, false)
  | some cs => geminiCandLoop cs budget

/-- The spawned Gemini task in `stream_gemini` on a successfully decoded
body: run `process_gemini_response`, then send one synthetic `Completed`
carrying the freshly generated identifier `fresh` (the send's failure is
ignored). Returns the events delivered to the consumer. -/
def streamGeminiDeliver (resp : GeminiGenerateContentResponse)
    (fresh : String) (budget : Nat) : List Ev :=
  let r := processGeminiResponse resp budget
  r.1 ++ (if 0 < r.2.1 then [.ok (.completed fresh)] else [])

/-- Everything `stream_gemini` delivers through the channel after a
successful HTTP response: `dec` is the result of
`serde_json::from_slice::<GeminiGenerateContentResponse>` on the body
(`.error e` delivers the single parse-failure stream error). -/
def streamGeminiOutput (dec : Except String GeminiGenerateContentResponse)
    (fresh : String) (budget : Nat) : List Ev :=
  match dec with
  | .ok resp => streamGeminiDeliver resp fresh budget
  | .error e =>
    if 0 < budget then
      [.error (.stream ("Failed to parse Gemini response: " ++ e))]
    else []

/-- The text parts of one candidate, in part order. -/
def candidateTexts (c : GeminiCandidate) : List String :=
  match c.content with
  | none => []
  | some content =>
    match content.parts with
    | none => []
    | some ps => ps.filterMap (·.text)

/-- The text parts of a Gemini response document, in document order
(candidate order, then part order). -/
def geminiTextParts (resp : GeminiGenerateContentResponse) : List String :=
  match resp.candidates with
  | none => []
  | some cs => cs.flatMap candidateTexts

/-! ### Prompt model and the Gemini request mapping -/

/-- Rust `crate::client_common::InputItem`, restricted to the `Message`
variant the mapper destructures plus a stand-in for the remaining
variants (matched by a wildcard in the source). -/
inductive InputItem where
  | message (role : String) (content : List ContentItem)
  | otherInput (tag : String)
deriving DecidableEq, Repr

/-- Rust `crate::client_common::Prompt`, restricted to the fields this layer
reads. -/
structure Prompt where
  instructions : String
  input : List InputItem
  prevId : Option String
  store : Bool
deriving DecidableEq, Repr

/-- Enum `GeminiPart` (request side): only the `Text` variant exists. -/
inductive GeminiPart where
  | text (s : String)
deriving DecidableEq, Repr

/-- Struct `GeminiContent` (request side): `{ role, parts }`. -/
structure GeminiContent where
  role : String
  parts : List GeminiPart
deriving DecidableEq, Repr

/-- Struct `GeminiGenerateContentRequest`: `{ contents }`. -/
structure GeminiGenerateContentRequest where
  contents : List GeminiContent
deriving DecidableEq, Repr

/-- The inner loop of `map_prompt_to_gemini_request` over a message's
content items: pushes a text part per `OutputText`, warns and drops
everything else. -/
def collectParts : List ContentItem → List GeminiPart
  | [] => []
  | .outputText t :: rest => .text t :: collectParts rest
  | .otherContent _ :: rest => collectParts rest

/-- The outer loop of `map_prompt_to_gemini_request` over the prompt's
input items: a `Message` contributes one `GeminiContent` when its
collected parts are nonempty (role `"user"` kept, anything else mapped
to `"model"`); every other item is warned about and dropped. -/
def mapInputItems : List InputItem → List GeminiContent
  | [] => []
  | .message role content :: rest =>
    let parts := collectParts content
    if parts.isEmpty then mapInputItems rest
    else
      { role := if role = "user" then "user" else "model",
        parts := parts } :: mapInputItems rest
  | .otherInput _ :: rest => mapInputItems rest

/-- Function `map_prompt_to_gemini_request` (the source returns `Result` but its
only exit is `Ok`). -/
def mapPromptToGeminiRequest (p : Prompt) : GeminiGenerateContentRequest :=
  { contents := mapInputItems p.input }

/-! ### Retrying request executor

`stream_responses` and `stream_gemini` each run a retry loop over HTTP
attempts. An attempt's outcome is what `client.post(...).send().await`
plus the status check produces; the (infinite) network is modelled by a
finite list of outcomes, one per attempt issued, and a run that would
need more attempts than the list provides ends in the artificial
`fuel` result. -/

/-- Outcome of one HTTP attempt:
- `success`: a 2xx response;
- `httpError status body retryAfter`: a non-2xx response, with the
  parsed numeric `Retry-After` header (seconds) when present;
- `transportFailure msg`: `send()` returned `Err`. -/
inductive AttemptOutcome where
  | success
  | httpError (status : Nat) (body : String) (retryAfter : Option Nat)
  | transportFailure (msg : String)
deriving DecidableEq, Repr

/-- Test `status == StatusCode::TOO_MANY_REQUESTS || status.is_server_error()`. -/
def retryableStatus (s : Nat) : Bool :=
  s = 429 || (500 ≤ s && s ≤ 599)

/-- What a retry-loop run did: its final result, how many HTTP requests
it issued, and the sleeps (milliseconds) it performed between attempts,
in order. -/
structure ExecTrace where
  result : Except CodexErr Unit
  requestsSent : Nat
  sleeps : List Nat
deriving Repr

/-- Fuel stand-in: the outcome list was exhausted before the loop
exited. Represented as a distinguished transport error so `ExecTrace`
stays first-order; no claim theorem depends on runs that hit it. -/
def fuelErr : CodexErr := .transport "model: outcome list exhausted"

/-- The delay `stream_responses` sleeps after a retryable HTTP error at
attempt number `a`: the `Retry-After` seconds converted to milliseconds
when present, the computed backoff otherwise. -/
def respDelay (backoff : Nat → Nat) (retryAfter : Option Nat) (a : Nat) : Nat :=
  match retryAfter with
  | some secs => secs * 1000
  | none => backoff a

/-- The retry loop of `stream_responses`: `maxRetries` is
`*OPENAI_REQUEST_MAX_RETRIES`, `backoff` is `crate::util::backoff`,
`cred` the (per-iteration) result of `provider.api_key()` combined with
the `ok_or_else` that turns a missing key into `CodexErr::EnvVar`.
`attempt` is the counter before the `attempt += 1` at the top of the
iteration. -/
def respLoop (maxRetries : Nat) (backoff : Nat → Nat)
    (cred : Except CodexErr String) :
    List AttemptOutcome → Nat → ExecTrace
  | outcomes, attempt =>
    let a := attempt + 1
    match cred with
    | .error e => ⟨.error e, 0, []⟩
    | .ok _ =>
      match outcomes with
      | [] => ⟨.error fuelErr, 0, []⟩
      | .success :: _ => ⟨.ok (), 1, []⟩
      | .httpError s body ra :: rest =>
        if retryableStatus s then
          if maxRetries < a then ⟨.error (.retryLimit s), 1, []⟩
          else
            let t := respLoop maxRetries backoff cred rest a
            ⟨t.result, t.requestsSent + 1, respDelay backoff ra a :: t.sleeps⟩
        else ⟨.error (.unexpectedStatus s body), 1, []⟩
      | .transportFailure m :: rest =>
        if maxRetries < a then ⟨.error (.transport m), 1, []⟩
        else
          let t := respLoop maxRetries backoff cred rest a
          ⟨t.result, t.requestsSent + 1, backoff a :: t.sleeps⟩

/-- The retry loop of `stream_gemini`: same classification and ceiling,
but the delay is always `backoff(attempt)` — the `Retry-After` header is
never consulted on this path. -/
def geminiLoop (maxRetries : Nat) (backoff : Nat → Nat) :
    List AttemptOutcome → Nat → ExecTrace
  | outcomes, attempt =>
    let a := attempt + 1
    match outcomes with
    | [] => ⟨.error fuelErr, 0, []⟩
    | .success :: _ => ⟨.ok (), 1, []⟩
    | .httpError s body _ :: rest =>
      if retryableStatus s then
        if maxRetries < a then ⟨.error (.retryLimit s), 1, []⟩
        else
          let t := geminiLoop maxRetries backoff rest a
          ⟨t.result, t.requestsSent + 1, backoff a :: t.sleeps⟩
      else ⟨.error (.unexpectedStatus s body), 1, []⟩
    | .transportFailure m :: rest =>
      if maxRetries < a then ⟨.error (.transport m), 1, []⟩
      else
        let t := geminiLoop maxRetries backoff rest a
        ⟨t.result, t.requestsSent + 1, backoff a :: t.sleeps⟩

/-- Function `stream_gemini` up to the loop: credential resolution happens once,
before the loop and before any request is built or sent. -/
def streamGeminiExec (cred : Except CodexErr String) (maxRetries : Nat)
    (backoff : Nat → Nat) (outcomes : List AttemptOutcome) : ExecTrace :=
  match cred with
  | .error e => ⟨.error e, 0, []⟩
  | .ok _ => geminiLoop maxRetries backoff outcomes 0

/-- Function `stream_responses` entered at `attempt = 0`. -/
def streamResponsesExec (cred : Except CodexErr String) (maxRetries : Nat)
    (backoff : Nat → Nat) (outcomes : List AttemptOutcome) : ExecTrace :=
  respLoop maxRetries backoff cred outcomes 0

/-! ### Event-sequence predicates -/

/-- Is this delivered element a `Completed` event? -/
def isCompletedEv : Ev → Bool
  | .ok (.completed _) => true
  | _ => false

/-- The sequence contains at most one `Completed`, and nothing follows
a `Completed`. -/
def completedTerminal : List Ev → Bool
  | [] => true
  | e :: rest => if isCompletedEv e then rest.isEmpty else completedTerminal rest

/-- Modelled from the spec: the aggregation collaborator for the Chat
backend (`stream_chat_completions` + `aggregate`, consumed ready-made,
outside this file's source) yields a `ResponseStream`-contract sequence:
at most one `Completed`, and nothing after it. -/
def chatUpstreamWF (up : List Ev) : Prop :=
  completedTerminal up = true

/-- The step is a frame (possibly one whose data fails to parse), not a
transport error or an idle timeout. -/
def isFrameStep : StreamStep → Bool
  | .frame _ => true
  | _ => false

/-- The step is a decodable terminal envelope: a frame whose data parses
with discriminator `"response.completed"` and whose `response` field is
present and decodes to an identifier. -/
def isEnvelopeFrame : StreamStep → Bool
  | .frame (some ev) =>
    ev.kind = "response.completed" &&
      (match ev.response with | some (.ok _) => true | _ => false)
  | _ => false

/-- Shorthand for a delivered `OutputItemDone`. -/
def okItemEv (it : ResponseItem) : Ev := .ok (.outputItemDone it)

lemma completedTerminal_append_of_no_completed (l m : List Ev)
    (h : ∀ e ∈ l, isCompletedEv e = false) :
    completedTerminal (l ++ m) = completedTerminal m := by
  induction l with
  | nil => rfl
  | cons e rest ih =>
    have he := h e (by simp)
    simp only [List.cons_append, completedTerminal, he, if_neg (by simp [he] : ¬ isCompletedEv e = true)]
    exact ih (fun x hx => h x (by simp [hx]))

lemma completedTerminal_processSse (steps : List StreamStep) :
    ∀ rid budget, completedTerminal (processSse steps rid budget).1 = true := by
  induction steps with
  | nil =>
    intro rid budget
    cases rid <;> simp only [processSse] <;> split <;>
      simp [completedTerminal, isCompletedEv]
  | cons s rest ih =>
    intro rid budget
    cases s with
    | transportError m =>
      simp only [processSse]
      split <;> simp [completedTerminal, isCompletedEv]
    | idleTimeout =>
      simp only [processSse]
      split <;> simp [completedTerminal, isCompletedEv]
    | frame data =>
      cases data with
      | none => simpa only [processSse] using ih rid budget
      | some ev =>
        by_cases hk : ev.kind = "response.output_item.done"
        · cases hitem : ev.item with
          | none => simp only [processSse, if_pos hk, hitem]; exact ih rid budget
          | some iv =>
            cases iv with
            | bad => simp only [processSse, if_pos hk, hitem]; exact ih rid budget
            | ok item =>
              simp only [processSse, if_pos hk, hitem]
              by_cases hb : 0 < budget
              · simp only [if_pos hb, completedTerminal, isCompletedEv]
                exact ih rid (budget - 1)
              · simp [if_neg hb, completedTerminal]
        · by_cases hc : ev.kind = "response.completed"
          · cases hresp : ev.response with
            | none => simp only [processSse, if_neg hk, if_pos hc, hresp]; exact ih rid budget
            | some rv =>
              cases rv with
              | bad => simp only [processSse, if_neg hk, if_pos hc, hresp]; exact ih rid budget
              | ok i => simp only [processSse, if_neg hk, if_pos hc, hresp]; exact ih (some i) budget
          · simp only [processSse, if_neg hk, if_neg hc]; exact ih rid budget

lemma completedTerminal_chatBridge (up : List Ev) :
    ∀ budget, completedTerminal up = true →
      completedTerminal (chatBridge up budget).1 = true := by
  induction up with
  | nil => intro budget _; simp [chatBridge, completedTerminal]
  | cons e rest ih =>
    intro budget h
    cases budget with
    | zero => simp [chatBridge, completedTerminal]
    | succ b =>
      simp only [chatBridge, completedTerminal]
      by_cases he : isCompletedEv e = true
      · simp only [completedTerminal, he, if_pos he] at h ⊢
        have : rest = [] := by simpa using h
        subst this
        simp [chatBridge]
      · simp only [completedTerminal, he, Bool.false_eq_true, if_neg he] at h ⊢
        exact ih b h

lemma geminiPartsLoop_no_completed (ps : List GeminiResponsePartInternal) :
    ∀ budget, ∀ e ∈ (geminiPartsLoop ps budget).1, isCompletedEv e = false := by
  induction ps with
  | nil => intro budget e he; simp [geminiPartsLoop] at he
  | cons p rest ih =>
    intro budget e he
    obtain ⟨ptext⟩ := p
    cases ptext with
    | none =>
      simp only [geminiPartsLoop] at he
      exact ih budget e he
    | some t =>
      simp only [geminiPartsLoop] at he
      by_cases hb : 0 < budget
      · rw [if_pos hb] at he
        rcases List.mem_cons.mp he with h | h
        · subst h; rfl
        · exact ih (budget - 1) e h
      · rw [if_neg hb] at he
        simp at he

lemma geminiCandLoop_no_completed (cs : List GeminiCandidate) :
    ∀ budget, ∀ e ∈ (geminiCandLoop cs budget).1, isCompletedEv e = false := by
  induction cs with
  | nil => intro budget e he; simp [geminiCandLoop] at he
  | cons c rest ih =>
    intro budget e he
    rw [geminiCandLoop] at he
    set step : List Ev × Nat × Bool :=
      (match c.content with
       | none => ([], budget, false)
       | some content =>
         match content.parts with
         | none => ([], budget, false)
         | some ps =>
           let r := geminiPartsLoop ps budget
           (r.1, r.2.1, r.2.2.1)) with hstep
    have hstep1 : ∀ e ∈ step.1, isCompletedEv e = false := by
      intro x hx
      rw [hstep] at hx
      obtain ⟨ccontent⟩ := c
      cases ccontent with
      | none => simp at hx
      | some content =>
        obtain ⟨cparts, crole⟩ := content
        cases cparts with
        | none => simp at hx
        | some ps =>
          exact geminiPartsLoop_no_completed ps budget x hx
    by_cases hab : step.2.2 = true
    · rw [if_pos hab] at he
      exact hstep1 e he
    · rw [if_neg hab] at he
      simp only [List.mem_append] at he
      rcases he with h | h
      · exact hstep1 e h
      · exact ih step.2.1 e h

lemma processGeminiResponse_no_completed (resp : GeminiGenerateContentResponse)
    (budget : Nat) :
    ∀ e ∈ (processGeminiResponse resp budget).1, isCompletedEv e = false := by
  obtain ⟨cands⟩ := resp
  cases cands with
  | none => intro e he; simp [processGeminiResponse] at he
  | some cs =>
    intro e he
    exact geminiCandLoop_no_completed cs budget e he

lemma completedTerminal_streamGeminiOutput
    (dec : Except String GeminiGenerateContentResponse) (fresh : String)
    (budget : Nat) :
    completedTerminal (streamGeminiOutput dec fresh budget) = true := by
  cases dec with
  | error e =>
    simp only [streamGeminiOutput]
    split <;> simp [completedTerminal, isCompletedEv]
  | ok resp =>
    simp only [streamGeminiOutput, streamGeminiDeliver]
    rw [completedTerminal_append_of_no_completed _ _
      (processGeminiResponse_no_completed resp budget)]
    split <;> simp [completedTerminal, isCompletedEv]

/-- C1: on every backend path — the incremental SSE interpreter
(`process_sse`, from any interpreter state and any consumer budget), the
Chat bridge task (forwarding a well-formed aggregated upstream), and the
Gemini task (on any body-decode result) — the sequence of events
delivered to the consumer contains at most one `Completed` event, and no
event of any kind is delivered after a `Completed`. -/
theorem stream_completed_terminal_all_paths :
    (∀ steps rid budget,
        completedTerminal (processSse steps rid budget).1 = true)
    ∧ (∀ up budget, chatUpstreamWF up →
        completedTerminal (chatBridge up budget).1 = true)
    ∧ (∀ dec fresh budget,
        completedTerminal (streamGeminiOutput dec fresh budget) = true) :=
  ⟨fun steps rid budget => completedTerminal_processSse steps rid budget,
   fun up budget h => completedTerminal_chatBridge up budget h,
   fun dec fresh budget => completedTerminal_streamGeminiOutput dec fresh budget⟩

/-- Closed instance of `stream_completed_terminal_all_paths`: each
conjunct applied at a concrete input, the Chat-path well-formedness
hypothesis discharged by evaluation. -/
theorem stream_completed_terminal_all_paths_witness :
    completedTerminal
      (processSse
        [.frame (some ⟨"response.completed", some (.ok "r7"), none⟩)] none 4).1 = true
    ∧ completedTerminal
        (chatBridge [okItemEv (.otherItem "x"), .ok (.completed "z")] 4).1 = true
    ∧ completedTerminal (streamGeminiOutput (.error "bad json") "f" 4) = true :=
  ⟨stream_completed_terminal_all_paths.1
      [.frame (some ⟨"response.completed", some (.ok "r7"), none⟩)] none 4,
   stream_completed_terminal_all_paths.2.1
      [okItemEv (.otherItem "x"), .ok (.completed "z")] 4
      (by simp only [chatUpstreamWF]; decide),
   stream_completed_terminal_all_paths.2.2 (.error "bad json") "f" 4⟩

/-- Master lemma: interpreting a prefix of frame steps delivers some
list of `OutputItemDone` events and then continues on the remaining
steps with an updated `response_id` and budget; when the prefix contains
no decodable terminal envelope the `response_id` is unchanged. -/
lemma processSse_frames_run (pre : List StreamStep) :
    ∀ rest rid b, (∀ s ∈ pre, isFrameStep s = true) → pre.length < b →
    ∃ (items : List ResponseItem) (rid' : Option String),
      (processSse (pre ++ rest) rid b).1 =
        items.map okItemEv ++ (processSse rest rid' (b - items.length)).1
      ∧ items.length ≤ pre.length
      ∧ ((∀ s ∈ pre, isEnvelopeFrame s = false) → rid' = rid) := by
  induction pre with
  | nil =>
    intro rest rid b _ _
    exact ⟨[], rid, by simp, by simp, fun _ => rfl⟩
  | cons s pre' ih =>
    intro rest rid b hframes hb
    have hf : isFrameStep s = true := hframes s (by simp)
    cases s with
    | transportError m => simp [isFrameStep] at hf
    | idleTimeout => simp [isFrameStep] at hf
    | frame data =>
      have hframes' : ∀ x ∈ pre', isFrameStep x = true :=
        fun x hx => hframes x (by simp [hx])
      have hlen : pre'.length < b := by
        simp only [List.length_cons] at hb; omega
      cases data with
      | none =>
        obtain ⟨items, rid', h1, h2, h3⟩ := ih rest rid b hframes' hlen
        refine ⟨items, rid', ?_, by simpa using Nat.le_succ_of_le h2, ?_⟩
        · simpa only [List.cons_append, processSse] using h1
        · intro h
          exact h3 fun x hx => h x (by simp [hx])
      | some ev =>
        by_cases hk : ev.kind = "response.output_item.done"
        · cases hitem : ev.item with
          | some iv =>
            cases iv with
            | ok item =>
              have hb0 : 0 < b := by omega
              have hlen' : pre'.length < b - 1 := by
                simp only [List.length_cons] at hb; omega
              obtain ⟨items, rid', h1, h2, h3⟩ :=
                ih rest rid (b - 1) hframes' hlen'
              refine ⟨item :: items, rid', ?_, by simpa using h2, ?_⟩
              · simp only [List.cons_append, processSse, if_pos hk, hitem,
                  if_pos hb0, List.map_cons, List.cons_append, List.append_eq]
                have harith : b - 1 - items.length = b - (item :: items).length := by
                  simp only [List.length_cons]; omega
                rw [h1, harith]
                rfl
              · intro h
                exact h3 fun x hx => h x (by simp [hx])
            | bad =>
              obtain ⟨items, rid', h1, h2, h3⟩ := ih rest rid b hframes' hlen
              refine ⟨items, rid', ?_, by simpa using Nat.le_succ_of_le h2, ?_⟩
              · simpa only [List.cons_append, processSse, if_pos hk, hitem]
                  using h1
              · intro h
                exact h3 fun x hx => h x (by simp [hx])
          | none =>
            obtain ⟨items, rid', h1, h2, h3⟩ := ih rest rid b hframes' hlen
            refine ⟨items, rid', ?_, by simpa using Nat.le_succ_of_le h2, ?_⟩
            · simpa only [List.cons_append, processSse, if_pos hk, hitem]
                using h1
            · intro h
              exact h3 fun x hx => h x (by simp [hx])
        · by_cases hc : ev.kind = "response.completed"
          · cases hresp : ev.response with
            | some rv =>
              cases rv with
              | ok i =>
                obtain ⟨items, rid', h1, h2, h3⟩ :=
                  ih rest (some i) b hframes' hlen
                refine ⟨items, rid',
                  ?_, by simpa using Nat.le_succ_of_le h2, ?_⟩
                · simpa only [List.cons_append, processSse, if_neg hk,
                    if_pos hc, hresp] using h1
                · intro h
                  have := h (.frame (some ev)) (by simp)
                  rw [isEnvelopeFrame] at this
                  simp [hc, hresp] at this
              | bad =>
                obtain ⟨items, rid', h1, h2, h3⟩ := ih rest rid b hframes' hlen
                refine ⟨items, rid',
                  ?_, by simpa using Nat.le_succ_of_le h2, ?_⟩
                · simpa only [List.cons_append, processSse, if_neg hk,
                    if_pos hc, hresp] using h1
                · intro h
                  exact h3 fun x hx => h x (by simp [hx])
            | none =>
              obtain ⟨items, rid', h1, h2, h3⟩ := ih rest rid b hframes' hlen
              refine ⟨items, rid', ?_, by simpa using Nat.le_succ_of_le h2, ?_⟩
              · simpa only [List.cons_append, processSse, if_neg hk,
                  if_pos hc, hresp] using h1
              · intro h
                exact h3 fun x hx => h x (by simp [hx])
          · obtain ⟨items, rid', h1, h2, h3⟩ := ih rest rid b hframes' hlen
            refine ⟨items, rid', ?_, by simpa using Nat.le_succ_of_le h2, ?_⟩
            · simpa only [List.cons_append, processSse, if_neg hk, if_neg hc]
                using h1
            · intro h
              exact h3 fun x hx => h x (by simp [hx])

/-- The terminal-envelope frame with identifier `id` (its `item` field
is irrelevant and left arbitrary). -/
def envelopeFrame (id : String) (itemField : Option ItemVal) : StreamStep :=
  .frame (some ⟨"response.completed", some (.ok id), itemField⟩)

/-- C2: for every well-formed incremental session — frame steps only
(no transport decode error, no idle timeout), containing one decodable
terminal envelope, followed by graceful close — `process_sse` emits
zero or more `OutputItemDone` events followed by exactly one
`Completed`, whose `response_id` is the envelope's identifier. The
budget bound keeps the consumer attached throughout. -/
theorem processSse_wellformed_session (pre post : List StreamStep)
    (id : String) (itemField : Option ItemVal) (b : Nat)
    (hpre : ∀ s ∈ pre, isFrameStep s = true ∧ isEnvelopeFrame s = false)
    (hpost : ∀ s ∈ post, isFrameStep s = true ∧ isEnvelopeFrame s = false)
    (hb : (pre ++ envelopeFrame id itemField :: post).length < b) :
    ∃ items : List ResponseItem,
      (processSse (pre ++ envelopeFrame id itemField :: post) none b).1
        = items.map okItemEv ++ [.ok (.completed id)] := by
  have hblen : pre.length < b := by
    simp only [List.length_append, List.length_cons] at hb; omega
  obtain ⟨items1, rid1, h1, hle1, hrid1⟩ :=
    processSse_frames_run pre (envelopeFrame id itemField :: post) none b
      (fun s hs => (hpre s hs).1) hblen
  have hrid1' : rid1 = none := hrid1 (fun s hs => (hpre s hs).2)
  subst hrid1'
  set b1 := b - items1.length with hb1
  have hstep :
      (processSse (envelopeFrame id itemField :: post) none b1).1
        = (processSse post (some id) b1).1 := by
    simp only [envelopeFrame, processSse,
      if_neg (by decide : ¬ ("response.completed" : String) = "response.output_item.done"),
      if_pos (rfl : ("response.completed" : String) = "response.completed"),
      if_true]
  have hpostlen : post.length < b1 := by
    simp only [List.length_append, List.length_cons] at hb
    omega
  obtain ⟨items2, rid2, h2, hle2, hrid2⟩ :=
    processSse_frames_run post [] (some id) b1
      (fun s hs => (hpost s hs).1) hpostlen
  have hrid2' : rid2 = some id := hrid2 (fun s hs => (hpost s hs).2)
  subst hrid2'
  have hbfin : 0 < b1 - items2.length := by omega
  refine ⟨items1 ++ items2, ?_⟩
  rw [h1, hstep]
  rw [List.append_nil] at h2
  rw [h2]
  simp only [processSse, if_pos hbfin, List.map_append, List.append_assoc]

/-- Closed instance of `processSse_wellformed_session`: one item frame,
an ignored delta frame, the envelope, one trailing item frame, then
close. -/
theorem processSse_wellformed_session_witness :
    ∃ items : List ResponseItem,
      (processSse
        ([.frame (some ⟨"response.output_item.done", none,
            some (.ok (.otherItem "fc"))⟩),
          .frame (some ⟨"response.output_text.delta", none, none⟩)] ++
          envelopeFrame "resp-1" none ::
            [.frame (some ⟨"response.output_item.done", none,
              some (.ok (.otherItem "fc2"))⟩)]) none 9).1
        = items.map okItemEv ++ [.ok (.completed "resp-1")] :=
  processSse_wellformed_session
    [.frame (some ⟨"response.output_item.done", none,
        some (.ok (.otherItem "fc"))⟩),
     .frame (some ⟨"response.output_text.delta", none, none⟩)]
    [.frame (some ⟨"response.output_item.done", none,
        some (.ok (.otherItem "fc2"))⟩)]
    "resp-1" none 9 (by decide) (by decide) (by decide)

/-- C3: for every incremental session that ends abnormally,
`process_sse` delivers some `OutputItemDone` events followed by exactly
one stream error as its final event, and never a `Completed`: (a) the
transport closes with no decodable terminal envelope observed; (b) the
idle-timeout window elapses with no frame, regardless of the preceding
frames and interpreter state. -/
theorem processSse_abnormal_end :
    (∀ steps b,
      (∀ s ∈ steps, isFrameStep s = true ∧ isEnvelopeFrame s = false) →
      steps.length < b →
      ∃ items : List ResponseItem,
        (processSse steps none b).1 = items.map okItemEv ++
          [.error (.stream "stream closed before response.completed")])
    ∧ (∀ pre rest rid b,
      (∀ s ∈ pre, isFrameStep s = true) → pre.length < b →
      ∃ items : List ResponseItem,
        (processSse (pre ++ .idleTimeout :: rest) rid b).1 =
          items.map okItemEv ++
            [.error (.stream "idle timeout waiting for SSE")]) := by
  constructor
  · intro steps b hsteps hb
    obtain ⟨items, rid', h1, hle, hrid⟩ :=
      processSse_frames_run steps [] none b (fun s hs => (hsteps s hs).1) hb
    have hrid' : rid' = none := hrid (fun s hs => (hsteps s hs).2)
    subst hrid'
    have hbfin : 0 < b - items.length := by omega
    refine ⟨items, ?_⟩
    rw [List.append_nil] at h1
    rw [h1]
    simp only [processSse, if_pos hbfin]
  · intro pre rest rid b hpre hb
    obtain ⟨items, rid', h1, hle, _⟩ :=
      processSse_frames_run pre (.idleTimeout :: rest) rid b hpre hb
    have hbfin : 0 < b - items.length := by omega
    refine ⟨items, ?_⟩
    rw [h1]
    simp only [processSse, if_pos hbfin]

/-- Closed instance of `processSse_abnormal_end`: (a) one item frame
then close without envelope; (b) one item frame, then the idle timeout
fires even though an envelope had been observed. -/
theorem processSse_abnormal_end_witness :
    (∃ items : List ResponseItem,
      (processSse
        [.frame (some ⟨"response.output_item.done", none,
          some (.ok (.otherItem "m1"))⟩)] none 3).1 =
        items.map okItemEv ++
          [.error (.stream "stream closed before response.completed")])
    ∧ (∃ items : List ResponseItem,
      (processSse
        ([.frame (some ⟨"response.output_item.done", none,
            some (.ok (.otherItem "m2"))⟩)] ++
          .idleTimeout :: [.frame none]) (some "seen") 3).1 =
        items.map okItemEv ++
          [.error (.stream "idle timeout waiting for SSE")]) :=
  ⟨processSse_abnormal_end.1
      [.frame (some ⟨"response.output_item.done", none,
        some (.ok (.otherItem "m1"))⟩)] 3 (by decide) (by decide),
   processSse_abnormal_end.2
      [.frame (some ⟨"response.output_item.done", none,
        some (.ok (.otherItem "m2"))⟩)] [.frame none] (some "seen") 3
      (by decide) (by decide)⟩

/-- The sleeps a retry loop performs for `n` consecutive retryable
failures starting after attempt counter `a`, given the per-attempt
delay function `d`. -/
def consecSleeps (d : Nat → Nat) : Nat → Nat → List Nat
  | 0, _ => []
  | n + 1, a => d (a + 1) :: consecSleeps d n (a + 1)

lemma respLoop_consec_retryable (mr : Nat) (bo : Nat → Nat) (key : String)
    (s : Nat) (body : String) (ra : Option Nat)
    (h : retryableStatus s = true) :
    ∀ (n a : Nat) (tail : List AttemptOutcome), a + n ≤ mr →
      respLoop mr bo (.ok key)
          (List.replicate n (.httpError s body ra) ++ tail) a =
        ⟨(respLoop mr bo (.ok key) tail (a + n)).result,
         (respLoop mr bo (.ok key) tail (a + n)).requestsSent + n,
         consecSleeps (respDelay bo ra) n a ++
           (respLoop mr bo (.ok key) tail (a + n)).sleeps⟩ := by
  intro n
  induction n with
  | zero =>
    intro a tail _
    simp [consecSleeps]
  | succ n ihn =>
    intro a tail hle
    have hnotceil : ¬ mr < a + 1 := by omega
    rw [List.replicate_succ, List.cons_append]
    rw [respLoop]
    simp only [h, if_true, if_neg hnotceil]
    rw [ihn (a + 1) tail (by omega)]
    have hidx : a + 1 + n = a + (n + 1) := by omega
    rw [hidx]
    simp only [consecSleeps, List.cons_append, ExecTrace.mk.injEq]
    refine ⟨trivial, by omega, trivial⟩

lemma geminiLoop_consec_retryable (mr : Nat) (bo : Nat → Nat)
    (s : Nat) (body : String) (ra : Option Nat)
    (h : retryableStatus s = true) :
    ∀ (n a : Nat) (tail : List AttemptOutcome), a + n ≤ mr →
      geminiLoop mr bo
          (List.replicate n (.httpError s body ra) ++ tail) a =
        ⟨(geminiLoop mr bo tail (a + n)).result,
         (geminiLoop mr bo tail (a + n)).requestsSent + n,
         consecSleeps bo n a ++ (geminiLoop mr bo tail (a + n)).sleeps⟩ := by
  intro n
  induction n with
  | zero =>
    intro a tail _
    simp [consecSleeps]
  | succ n ihn =>
    intro a tail hle
    have hnotceil : ¬ mr < a + 1 := by omega
    rw [List.replicate_succ, List.cons_append]
    rw [geminiLoop]
    simp only [h, if_true, if_neg hnotceil]
    rw [ihn (a + 1) tail (by omega)]
    have hidx : a + 1 + n = a + (n + 1) := by omega
    rw [hidx]
    simp only [consecSleeps, List.cons_append, ExecTrace.mk.injEq]
    refine ⟨trivial, by omega, trivial⟩

/-- C4: with `n` consecutive retryable (429/5xx) responses, `n` at most
the retry ceiling, both executors sleep after each one and issue a
further attempt, surfacing no error (here the `n+1`-th attempt
succeeds, having issued `n+1` requests in total); on the `ceiling+1`-th
consecutive retryable response both return a retry-limit error carrying
that status, having issued exactly `ceiling+1` requests. -/
theorem retry_ceiling_both_paths (mr : Nat) (bo : Nat → Nat) (key : String)
    (s : Nat) (body : String) (ra : Option Nat) (n : Nat)
    (hs : retryableStatus s = true) :
    (n ≤ mr →
      streamResponsesExec (.ok key) mr bo
          (List.replicate n (.httpError s body ra) ++ [.success]) =
        ⟨.ok (), n + 1, consecSleeps (respDelay bo ra) n 0⟩)
    ∧ streamResponsesExec (.ok key) mr bo
          (List.replicate (mr + 1) (.httpError s body ra)) =
        ⟨.error (.retryLimit s), mr + 1, consecSleeps (respDelay bo ra) mr 0⟩
    ∧ (n ≤ mr →
      streamGeminiExec (.ok key) mr bo
          (List.replicate n (.httpError s body ra) ++ [.success]) =
        ⟨.ok (), n + 1, consecSleeps bo n 0⟩)
    ∧ streamGeminiExec (.ok key) mr bo
          (List.replicate (mr + 1) (.httpError s body ra)) =
        ⟨.error (.retryLimit s), mr + 1, consecSleeps bo mr 0⟩ := by
  refine ⟨?_, ?_, ?_, ?_⟩
  · intro hn
    rw [streamResponsesExec,
      respLoop_consec_retryable mr bo key s body ra hs n 0 [.success] (by omega)]
    simp only [Nat.zero_add, respLoop, ExecTrace.mk.injEq]
    exact ⟨trivial, by omega, by simp⟩
  · rw [streamResponsesExec, List.replicate_succ',
      respLoop_consec_retryable mr bo key s body ra hs mr 0
        [.httpError s body ra] (by omega)]
    simp only [Nat.zero_add, respLoop, hs, if_true,
      if_pos (by omega : mr < mr + 1), ExecTrace.mk.injEq]
    exact ⟨trivial, by omega, by simp⟩
  · intro hn
    rw [streamGeminiExec,
      geminiLoop_consec_retryable mr bo s body ra hs n 0 [.success] (by omega)]
    simp only [Nat.zero_add, geminiLoop, ExecTrace.mk.injEq]
    exact ⟨trivial, by omega, by simp⟩
  · rw [streamGeminiExec, List.replicate_succ',
      geminiLoop_consec_retryable mr bo s body ra hs mr 0
        [.httpError s body ra] (by omega)]
    simp only [Nat.zero_add, geminiLoop, hs, if_true,
      if_pos (by omega : mr < mr + 1), ExecTrace.mk.injEq]
    exact ⟨trivial, by omega, by simp⟩

/-- Closed instance of `retry_ceiling_both_paths` at ceiling 2 with two
consecutive 503 responses then success, and with three consecutive 503
responses. -/
theorem retry_ceiling_both_paths_witness :
    streamResponsesExec (.ok "k") 2 (fun a => 100 * a)
        (List.replicate 2 (.httpError 503 "oops" none) ++ [.success]) =
      ⟨.ok (), 3, consecSleeps (respDelay (fun a => 100 * a) none) 2 0⟩
    ∧ streamResponsesExec (.ok "k") 2 (fun a => 100 * a)
        (List.replicate 3 (.httpError 503 "oops" none)) =
      ⟨.error (.retryLimit 503), 3,
        consecSleeps (respDelay (fun a => 100 * a) none) 2 0⟩ :=
  ⟨(retry_ceiling_both_paths 2 (fun a => 100 * a) "k" 503 "oops" none 2
      (by decide)).1 (by decide),
   (retry_ceiling_both_paths 2 (fun a => 100 * a) "k" 503 "oops" none 2
      (by decide)).2.1⟩

/-- C5: a response whose status is neither 429 nor 5xx (and not a
success) makes both executors fail immediately on its first occurrence
with an unexpected-status error carrying the status and raw body: one
request issued, no sleep, no further attempt, whatever outcomes would
have followed and whatever the attempt counter already was. -/
theorem unexpected_status_fails_immediately (mr : Nat) (bo : Nat → Nat)
    (key : String) (s : Nat) (body : String) (ra : Option Nat)
    (rest : List AttemptOutcome) (a : Nat)
    (hs : retryableStatus s = false) :
    respLoop mr bo (.ok key) (.httpError s body ra :: rest) a =
      ⟨.error (.unexpectedStatus s body), 1, []⟩
    ∧ geminiLoop mr bo (.httpError s body ra :: rest) a =
      ⟨.error (.unexpectedStatus s body), 1, []⟩ := by
  constructor
  · rw [respLoop]; simp [hs]
  · rw [geminiLoop]; simp [hs]

/-- Closed instance of `unexpected_status_fails_immediately` at a 404
with a nonempty body and further outcomes available. -/
theorem unexpected_status_fails_immediately_witness :
    respLoop 3 (fun a => 100 * a) (.ok "k")
        (.httpError 404 "not found" (some 9) :: [.success]) 0 =
      ⟨.error (.unexpectedStatus 404 "not found"), 1, []⟩
    ∧ geminiLoop 3 (fun a => 100 * a)
        (.httpError 404 "not found" (some 9) :: [.success]) 0 =
      ⟨.error (.unexpectedStatus 404 "not found"), 1, []⟩ :=
  unexpected_status_fails_immediately 3 (fun a => 100 * a) "k" 404
    "not found" (some 9) [.success] 0 (by decide)

/-- C6 counterexample: on the Gemini path the claim fails — a retryable
429 carrying a numeric `Retry-After` of 7 seconds is followed by a sleep
of `backoff(1)` (here 1 ms), not 7000 ms: `stream_gemini` never reads
the header. -/
theorem gemini_ignores_retry_after_counterexample :
    (streamGeminiExec (.ok "k") 5 (fun _ => 1)
        [.httpError 429 "" (some 7), .success]).sleeps = [1]
    ∧ (streamGeminiExec (.ok "k") 5 (fun _ => 1)
        [.httpError 429 "" (some 7), .success]).sleeps ≠ [7000] := by
  constructor
  · rfl
  · decide

/-- C6 amended: for a retryable response below the ceiling, the
*Responses* executor sleeps the server-supplied `Retry-After` seconds
converted to milliseconds when present and numeric, and `backoff(1)`
otherwise; the *Gemini* executor always sleeps the computed backoff,
ignoring any `Retry-After`. -/
theorem retry_delay_precedence (mr : Nat) (bo : Nat → Nat) (key : String)
    (s : Nat) (body : String) (rest : List AttemptOutcome)
    (hs : retryableStatus s = true) (hmr : 0 < mr) :
    (∀ secs, (streamResponsesExec (.ok key) mr bo
        (.httpError s body (some secs) :: rest)).sleeps.head? =
      some (secs * 1000))
    ∧ (streamResponsesExec (.ok key) mr bo
        (.httpError s body none :: rest)).sleeps.head? = some (bo 1)
    ∧ (∀ ra, (streamGeminiExec (.ok key) mr bo
        (.httpError s body ra :: rest)).sleeps.head? = some (bo 1)) := by
  have hnot : ¬ mr < 0 + 1 := by omega
  refine ⟨?_, ?_, ?_⟩
  · intro secs
    rw [streamResponsesExec, respLoop]
    simp [hs, hnot, respDelay]
  · rw [streamResponsesExec, respLoop]
    simp [hs, hnot, respDelay]
  · intro ra
    rw [streamGeminiExec, geminiLoop]
    simp [hs, hnot]

/-- Closed instance of `retry_delay_precedence` at ceiling 2 and a 429:
`Retry-After: 7` gives a 7000 ms first sleep on the Responses path, no
header gives `backoff(1)`, and the Gemini path sleeps `backoff(1)` even
with the header present. -/
theorem retry_delay_precedence_witness :
    (streamResponsesExec (.ok "k") 2 (fun a => 100 * a)
        (.httpError 429 "" (some 7) :: [.success])).sleeps.head? =
      some 7000
    ∧ (streamResponsesExec (.ok "k") 2 (fun a => 100 * a)
        (.httpError 429 "" none :: [.success])).sleeps.head? = some 100
    ∧ (streamGeminiExec (.ok "k") 2 (fun a => 100 * a)
        (.httpError 429 "" (some 7) :: [.success])).sleeps.head? =
      some 100 :=
  ⟨(retry_delay_precedence 2 (fun a => 100 * a) "k" 429 "" [.success]
      (by decide) (by decide)).1 7,
   (retry_delay_precedence 2 (fun a => 100 * a) "k" 429 "" [.success]
      (by decide) (by decide)).2.1,
   (retry_delay_precedence 2 (fun a => 100 * a) "k" 429 "" [.success]
      (by decide) (by decide)).2.2 (some 7)⟩

/-- C7: when credential resolution fails, both executors report the
failure with zero HTTP requests issued and zero sleeps — before any
network attempt, with no retry of the credential failure — whatever the
pending outcomes and attempt counter. -/
theorem credential_failure_before_network (mr : Nat) (bo : Nat → Nat)
    (e : CodexErr) (outcomes : List AttemptOutcome) (a : Nat) :
    respLoop mr bo (.error e) outcomes a = ⟨.error e, 0, []⟩
    ∧ streamGeminiExec (.error e) mr bo outcomes = ⟨.error e, 0, []⟩ := by
  constructor
  · rw [respLoop]
  · rfl

lemma geminiPartsLoop_full (ps : List GeminiResponsePartInternal) :
    ∀ b, (ps.filterMap (·.text)).length ≤ b →
      geminiPartsLoop ps b =
        ((ps.filterMap (·.text)).map geminiItemEvent,
         b - (ps.filterMap (·.text)).length, false, []) := by
  induction ps with
  | nil => intro b _; simp [geminiPartsLoop]
  | cons p rest ih =>
    intro b hb
    obtain ⟨ptext⟩ := p
    cases ptext with
    | none =>
      simp only [geminiPartsLoop]
      simpa using ih b (by simpa using hb)
    | some t =>
      simp only [List.filterMap_cons] at hb ⊢
      simp only [List.length_cons] at hb
      have hb0 : 0 < b := by omega
      simp only [geminiPartsLoop, if_pos hb0]
      rw [ih (b - 1) (by omega)]
      have harith : b - 1 - (List.filterMap (fun x => x.text) rest).length
          = b - ((List.filterMap (fun x => x.text) rest).length + 1) := by omega
      simp only [List.map_cons, List.length_cons, harith]

lemma geminiCandLoop_full (cs : List GeminiCandidate) :
    ∀ b, (cs.flatMap candidateTexts).length ≤ b →
      geminiCandLoop cs b =
        ((cs.flatMap candidateTexts).map geminiItemEvent,
         b - (cs.flatMap candidateTexts).length, false) := by
  induction cs with
  | nil => intro b _; simp [geminiCandLoop]
  | cons c rest ih =>
    intro b hb
    simp only [List.flatMap_cons, List.length_append] at hb
    have hstep :
        (match c.content with
         | none => ([], b, false)
         | some content =>
           match content.parts with
           | none => ([], b, false)
           | some ps =>
             let r := geminiPartsLoop ps b
             (r.1, r.2.1, r.2.2.1)) =
          (((candidateTexts c).map geminiItemEvent : List Ev),
           b - (candidateTexts c).length, false) := by
      obtain ⟨ccontent⟩ := c
      cases ccontent with
      | none => simp [candidateTexts]
      | some content =>
        obtain ⟨cparts, crole⟩ := content
        cases cparts with
        | none => simp [candidateTexts]
        | some ps =>
          have hple : (ps.filterMap (·.text)).length ≤ b := by
            simp only [candidateTexts] at hb ⊢
            omega
          dsimp only
          rw [geminiPartsLoop_full ps b hple]
          simp [candidateTexts]
    simp only [geminiCandLoop, hstep]
    rw [ih (b - (candidateTexts c).length) (by omega)]
    have harith : b - (candidateTexts c).length -
          (rest.flatMap candidateTexts).length
        = b - ((candidateTexts c).length +
            (rest.flatMap candidateTexts).length) := by omega
    simp only [List.flatMap_cons, List.map_append, List.length_append,
      harith, Bool.false_eq_true, if_false]

/-- C8: on a successfully decoded Gemini document with `N` text parts
across its candidates, the adapter delivers exactly `N`
`OutputItemDone` events — each an assistant `Message` wrapping one text
part, in document order (see `geminiItemEvent`) — followed by exactly
one `Completed` carrying the freshly synthesized identifier; a document
with zero parts yields zero `OutputItemDone` and one `Completed`. -/
theorem gemini_single_shot_adapter (resp : GeminiGenerateContentResponse)
    (fresh : String) (b : Nat)
    (hb : (geminiTextParts resp).length < b) :
    streamGeminiDeliver resp fresh b =
      (geminiTextParts resp).map geminiItemEvent ++
        [.ok (.completed fresh)] := by
  obtain ⟨cands⟩ := resp
  cases cands with
  | none =>
    simp [streamGeminiDeliver, processGeminiResponse, geminiTextParts]
    omega
  | some cs =>
    simp only [geminiTextParts] at hb ⊢
    have hpos : 0 < b - (cs.flatMap candidateTexts).length := by omega
    simp only [streamGeminiDeliver, processGeminiResponse,
      geminiCandLoop_full cs b (by omega : (cs.flatMap candidateTexts).length ≤ b),
      hpos, if_true]

/-- Closed instance of `gemini_single_shot_adapter`: a document with
two text parts spread over two candidates (one partless candidate and
one textless part in between), and a document with zero parts. -/
theorem gemini_single_shot_adapter_witness :
    streamGeminiDeliver
        ⟨some [⟨some ⟨some [⟨some "alpha"⟩, ⟨none⟩], some "model"⟩⟩,
               ⟨none⟩,
               ⟨some ⟨some [⟨some "beta"⟩], none⟩⟩]⟩ "fresh-id" 9 =
      [geminiItemEvent "alpha", geminiItemEvent "beta",
       .ok (.completed "fresh-id")]
    ∧ streamGeminiDeliver ⟨some [⟨none⟩]⟩ "fresh-id2" 9 =
      [.ok (.completed "fresh-id2")] := by
  constructor
  · exact gemini_single_shot_adapter
      ⟨some [⟨some ⟨some [⟨some "alpha"⟩, ⟨none⟩], some "model"⟩⟩,
             ⟨none⟩,
             ⟨some ⟨some [⟨some "beta"⟩], none⟩⟩]⟩ "fresh-id" 9 (by decide)
  · exact gemini_single_shot_adapter ⟨some [⟨none⟩]⟩ "fresh-id2" 9 (by decide)

/-- C9: when a channel send fails because the consumer dropped the
stream (budget exhausted), each producing task stops all further work
for the request at the point of the failed send: the SSE interpreter
returns with the rest of the transport stream unread, from any
interpreter state; the Chat bridge breaks with the rest of the upstream
unread; and the Gemini adapter returns with the remaining parts
unvisited and delivers nothing further. -/
theorem send_failure_stops_producer :
    (∀ (respField : Option RespVal) (item : ResponseItem)
        (rest : List StreamStep) (rid : Option String),
      processSse
        (.frame (some ⟨"response.output_item.done", respField,
          some (.ok item)⟩) :: rest) rid 0 = ([], rest))
    ∧ (∀ (e : Ev) (rest : List Ev), chatBridge (e :: rest) 0 = ([], rest))
    ∧ (∀ (t : String) (rest : List GeminiResponsePartInternal),
      geminiPartsLoop (⟨some t⟩ :: rest) 0 = ([], 0, true, rest)) := by
  refine ⟨?_, ?_, ?_⟩
  · intro respField item rest rid
    simp [processSse]
  · intro e rest
    rfl
  · intro t rest
    simp [geminiPartsLoop]

/-- The mapping the spec describes for one input item, used to
characterize `map_prompt_to_gemini_request`: a `Message` becomes one
request content with its `OutputText` items as text parts, `none` when
no text part results; every other item maps to `none`. -/
def geminiItemSpec : InputItem → Option GeminiContent
  | .message role content =>
    let parts := content.filterMap fun ci =>
      match ci with
      | .outputText t => some (GeminiPart.text t)
      | .otherContent _ => none
    if parts.isEmpty then none
    else some ⟨if role = "user" then "user" else "model", parts⟩
  | .otherInput _ => none

lemma collectParts_eq_filterMap (content : List ContentItem) :
    collectParts content = content.filterMap fun ci =>
      match ci with
      | .outputText t => some (GeminiPart.text t)
      | .otherContent _ => none := by
  induction content with
  | nil => rfl
  | cons ci rest ih =>
    cases ci with
    | outputText t => simp [collectParts, List.filterMap_cons, ih]
    | otherContent tag => simp [collectParts, List.filterMap_cons, ih]

/-- C10: the outbound Gemini request is exactly the input items filtered
through `geminiItemSpec` — only `Message` items contribute, within a
message only `OutputText` content becomes parts, a message with no text
part is omitted entirely — so the request never has more contents than
the prompt has input items, and can have strictly fewer (witnessed by a
prompt whose single message carries no text). -/
theorem gemini_request_mapping (p : Prompt) :
    (mapPromptToGeminiRequest p).contents = p.input.filterMap geminiItemSpec
    ∧ (mapPromptToGeminiRequest p).contents.length ≤ p.input.length
    ∧ (mapPromptToGeminiRequest
        ⟨"", [.message "u" [.otherContent "image"]], none, false⟩).contents.length
      < [InputItem.message "u" [.otherContent "image"]].length := by
  have hmain : ∀ input : List InputItem,
      mapInputItems input = input.filterMap geminiItemSpec := by
    intro input
    induction input with
    | nil => rfl
    | cons item rest ih =>
      cases item with
      | otherInput tag => simp [mapInputItems, List.filterMap_cons, geminiItemSpec, ih]
      | message role content =>
        simp only [mapInputItems, List.filterMap_cons, geminiItemSpec,
          collectParts_eq_filterMap]
        by_cases hp : (content.filterMap fun ci =>
            match ci with
            | .outputText t => some (GeminiPart.text t)
            | .otherContent _ => none).isEmpty
        · simp [hp, ih]
        · simp [hp, ih]
  refine ⟨hmain p.input, ?_, by decide⟩
  rw [show (mapPromptToGeminiRequest p).contents = mapInputItems p.input from rfl,
    hmain p.input]
  exact List.length_filterMap_le geminiItemSpec p.input

end Codex
